import Mathlib

/-!
Shallow embedding of the fbcli command-line client core (fbcli/cli.py and
fbcli/editor.py): the draft-text parsing protocol, the domain-object caches
(persons, cases, search results), the visited-case history, the session
state machine, the mutating-case-call protocol and the command/alias
dispatch.  Python strings are modelled as Lean String, dicts as ordered
association lists (CPython dicts preserve insertion order), and remote API
calls are made explicit: a function that would call the remote service
returns the list of remote calls it issues (or an error).
-/

/-! ## Python string primitives -/

/-- Characters treated as whitespace by Python str.strip() and str.split()
(ASCII subset; exotic Unicode whitespace is not modelled). -/
def isPySpace (c : Char) : Bool :=
  c = ' ' || c = '\t' || c = '\n' || c = '\r' || c = '\x0b' || c = '\x0c'

/-- Accumulator loop for splitlines: cuts at LF, CRLF or lone CR, and keeps
a trailing unterminated line (Python str.splitlines; exotic Unicode line
boundaries are not modelled). -/
def splitlinesAux : List Char → List Char → List String
  | [], acc => if acc.isEmpty then [] else [String.mk acc.reverse]
  | '\r' :: '\n' :: rest, acc => String.mk acc.reverse :: splitlinesAux rest []
  | '\n' :: rest, acc => String.mk acc.reverse :: splitlinesAux rest []
  | '\r' :: rest, acc => String.mk acc.reverse :: splitlinesAux rest []
  | c :: rest, acc => splitlinesAux rest (c :: acc)

/-- Python str.splitlines(): list of lines without their terminators; a
final terminator does not produce an extra empty line. -/
def splitlines (s : String) : List String :=
  splitlinesAux s.data []

/-- Python str.strip(): drop leading and trailing whitespace. -/
def pyStrip (s : String) : String :=
  String.mk (((s.data.dropWhile isPySpace).reverse.dropWhile isPySpace).reverse)

/-- Python str.strip(chr(10)): drop leading and trailing newline characters. -/
def stripNL (s : String) : String :=
  String.mk (((s.data.dropWhile (· = '\n')).reverse.dropWhile (· = '\n')).reverse)

/-- Python line.startswith(COMMENT_CHAR) with COMMENT_CHAR = the hash sign. -/
def startswithHash (s : String) : Bool :=
  match s.data with
  | c :: _ => c == '#'
  | [] => false

/-- Python chr(10).join(lines). -/
def joinNL : List String → String
  | [] => ""
  | [l] => l
  | l :: rest => l ++ "\n" ++ joinNL rest

/-- Python str.split() with no argument: split on whitespace runs, no empty
tokens. -/
def pySplitAux : List Char → List Char → List String
  | [], acc => if acc.isEmpty then [] else [String.mk acc.reverse]
  | c :: rest, acc =>
    if isPySpace c then
      if acc.isEmpty then pySplitAux rest []
      else String.mk acc.reverse :: pySplitAux rest []
    else pySplitAux rest (c :: acc)

/-- Python cmdline.split(). -/
def pySplit (s : String) : List String :=
  pySplitAux s.data []

/-- Python s.split(sep) for a single-character separator: empty tokens are
kept, and the empty input yields one empty token. -/
def splitOnCharAux (sep : Char) : List Char → List Char → List String
  | [], acc => [String.mk acc.reverse]
  | c :: rest, acc =>
    if c = sep then String.mk acc.reverse :: splitOnCharAux sep rest []
    else splitOnCharAux sep rest (c :: acc)

/-- Python str.isdigit(): nonempty and all digits (ASCII digits only;
Unicode digit categories are not modelled). -/
def pyIsdigit (s : String) : Bool :=
  !s.data.isEmpty && s.data.all Char.isDigit

/-! ## DraftEditor: fbcli/editor.py -/

/-- Python editor._strip_comments: drop the trailing run of comment-marker
lines (dropwhile over the reversed line list), keeping everything before it. -/
def stripComments (text : String) : String :=
  joinNL ((splitlines text).reverse.dropWhile startswithHash).reverse

/-- Modelled from the spec: the errors module (fbcli/errors.py, defining the
Aborted exception) is not under src; the spec calls it UserAbort, the error
raised when a draft comes back empty, meaning a deliberate cancellation. -/
inductive EditorError where
  | aborted
  deriving DecidableEq

/-- Python editor.Text state after __init__: the optional raw header block
and the raw body text. -/
structure Text where
  header : Option String
  rawBody : String
  deriving DecidableEq

/-- The separator token Text.SEP between header and body. -/
def Text.SEP : String := "---"

/-- Python Text._parse_with_header: every line is stripped; the header is
the lines before the first separator line, the body the lines after it
(itertools.takewhile consumes the separator from the shared iterator). -/
def Text.parseWithHeader (text : String) : Text :=
  let lines := (splitlines text).map pyStrip
  { header := some (joinNL (lines.takeWhile (fun l => l ≠ Text.SEP))),
    rawBody := joinNL ((lines.dropWhile (fun l => l ≠ Text.SEP)).drop 1) }

/-- Python Text._parse (run by Text.__init__): if some stripped line equals
the separator, split into header and body; otherwise the whole text is the
raw body and there is no header. -/
def Text.parse (text : String) : Text :=
  if (splitlines text).any (fun l => pyStrip l == Text.SEP) then
    Text.parseWithHeader text
  else
    { header := none, rawBody := text }

/-- Result of the Text.meta property: the empty mapping when there is no
header, otherwise the yaml.load of the header text.  yaml parsing is an
external collaborator and is kept symbolic. -/
inductive TextMeta where
  | empty
  | yaml (header : String)
  deriving DecidableEq

/-- Python Text.meta. -/
def Text.meta (t : Text) : TextMeta :=
  match t.header with
  | none => TextMeta.empty
  | some h => TextMeta.yaml h

/-- Python Text.body: the raw body with trailing comment lines stripped and
surrounding newlines removed. -/
def Text.body (t : Text) : String :=
  stripNL (stripComments t.rawBody)

/-- Python Text.is_empty: no body and falsy meta.  The truthiness of a
yaml.load result is external, so it is passed in as yamlTruthy; a missing
header is the empty dict, which is falsy. -/
def Text.is_empty (t : Text) (yamlTruthy : String → Bool) : Bool :=
  t.body == "" && (match t.header with
    | none => true
    | some h => !yamlTruthy h)

/-- Python editor.abort_if_empty: raise Aborted when the text is empty. -/
def abort_if_empty (t : Text) (yamlTruthy : String → Bool) : Except EditorError Unit :=
  if t.is_empty yamlTruthy then Except.error EditorError.aborted else Except.ok ()

/-! ## Domain objects: fbcli/cli.py -/

/-- Python FBPerson: the accessors id, fullname, email read the wrapped
viewPerson payload. -/
structure FBPerson where
  id : Int
  fullname : String
  email : String
  deriving DecidableEq

/-- Python FBPerson.get_by_id: scan the cache for a person with this id and
return it; otherwise _get fetches from the remote API (one remote call) and
the constructor adds the new person to the cache.  The cache is the set
FBPerson.CACHE of distinct wrapper objects, modelled as a list; remote is
the person payload the server would return; the result is (person, new
cache, number of remote fetches issued). -/
def FBPerson.get_by_id (cache : List FBPerson) (pid : Int) (remote : FBPerson) :
    FBPerson × List FBPerson × Nat :=
  match cache.find? (fun p => p.id == pid) with
  | some p => (p, cache, 0)
  | none => (remote, cache ++ [remote], 1)

/-- Python FBPerson.get_by_email: same protocol keyed on the email field. -/
def FBPerson.get_by_email (cache : List FBPerson) (email : String) (remote : FBPerson) :
    FBPerson × List FBPerson × Nat :=
  match cache.find? (fun p => p.email == email) with
  | some p => (p, cache, 0)
  | none => (remote, cache ++ [remote], 1)

/-- Python FBPerson.get_all: one listPeople remote call; every listed person
is constructed, so every one is added to the cache unconditionally.  The
result is (new cache, number of remote fetches); the sorted display list the
source also returns is presentational and not modelled. -/
def FBPerson.get_all (cache : List FBPerson) (listing : List FBPerson) :
    List FBPerson × Nat :=
  (cache ++ listing, 1)

/-- Python FBShortCase: the accessors read the wrapped search-result payload
(columns ixBug, sStatus, sTitle, sProject, sPriority, ixPriority). -/
structure FBShortCase where
  ixBug : Int
  sStatus : String
  sTitle : String
  sProject : String
  sPriority : String
  ixPriority : Int
  deriving DecidableEq

/-- Python FBShortCase.id. -/
def FBShortCase.id (c : FBShortCase) : Int := c.ixBug

/-- Python FBShortCase.project. -/
def FBShortCase.project (c : FBShortCase) : String := c.sProject

/-- Python FBShortCase.priority_id. -/
def FBShortCase.priority_id (c : FBShortCase) : Int := c.ixPriority

/-- Python FBCase: the accessors read the wrapped full-case payload; the
operations set comes from the operations attribute of the case element
(absent, or a comma-separated list).  Only the fields the claims touch are
modelled. -/
structure FBCase where
  ixBug : Int
  sTitle : String
  sStatus : String
  sPriority : String
  sProject : String
  opsAttr : Option String
  deriving DecidableEq

/-- Python FBCase.id. -/
def FBCase.id (c : FBCase) : Int := c.ixBug

/-- Python FBCase.operations: ops.split(chr(44)) if ops else [] — a missing
or empty attribute gives the empty set. -/
def FBCase.operations (c : FBCase) : List String :=
  match c.opsAttr with
  | none => []
  | some s => if s = "" then [] else splitOnCharAux ',' s.data []

/-- The AssertionError raised by FBCase.assert_operation: the message names
the rejected operation and the allowed set. -/
structure OpError where
  op : String
  allowed : List String
  deriving DecidableEq

/-- A remote API call issued by a mutating method: the API method name and
the keyword parameters forwarded to it.  The case id, acting user id and
event id that accompany every call are fixed per call and not modelled. -/
structure RemoteCall where
  method : String
  kwargs : List (String × String)
  deriving DecidableEq

/-- Keyword-parameter maps, modelled as ordered key-value lists (Python
dicts preserve insertion order and have unique keys). -/
abbrev Kwargs := List (String × String)

/-- Python FBCase._clean_kwargs: an empty sEvent entry is deleted (the
remote API renders it as the string None); everything else is kept. -/
def cleanKwargs (kwargs : Kwargs) : Kwargs :=
  kwargs.filter (fun kv => !(kv.1 == "sEvent" && kv.2 == ""))

/-- Python FBCase.assert_operation: fail unless op is in the operations
set reported by the server for this case. -/
def FBCase.assert_operation (c : FBCase) (op : String) : Except OpError Unit :=
  if op ∈ c.operations then Except.ok () else Except.error ⟨op, c.operations⟩

/-- Python FBCase.edit: an empty kwargs map returns immediately; otherwise
assert the edit operation, then issue the FB.edit remote call with cleaned
parameters. -/
def FBCase.edit (c : FBCase) (kwargs : Kwargs) : Except OpError (List RemoteCall) :=
  if kwargs.isEmpty then Except.ok []
  else match c.assert_operation "edit" with
    | Except.error e => Except.error e
    | Except.ok _ => Except.ok [⟨"edit", cleanKwargs kwargs⟩]

/-- Python FBCase.resolve: assert the resolve operation, then issue the
FB.resolve remote call with cleaned parameters. -/
def FBCase.resolve (c : FBCase) (kwargs : Kwargs) : Except OpError (List RemoteCall) :=
  match c.assert_operation "resolve" with
  | Except.error e => Except.error e
  | Except.ok _ => Except.ok [⟨"resolve", cleanKwargs kwargs⟩]

/-- Python FBCase.reopen. -/
def FBCase.reopen (c : FBCase) (kwargs : Kwargs) : Except OpError (List RemoteCall) :=
  match c.assert_operation "reopen" with
  | Except.error e => Except.error e
  | Except.ok _ => Except.ok [⟨"reopen", cleanKwargs kwargs⟩]

/-- Python FBCase.reactivate. -/
def FBCase.reactivate (c : FBCase) (kwargs : Kwargs) : Except OpError (List RemoteCall) :=
  match c.assert_operation "reactivate" with
  | Except.error e => Except.error e
  | Except.ok _ => Except.ok [⟨"reactivate", cleanKwargs kwargs⟩]

/-- Python FBCase.close. -/
def FBCase.close (c : FBCase) (kwargs : Kwargs) : Except OpError (List RemoteCall) :=
  match c.assert_operation "close" with
  | Except.error e => Except.error e
  | Except.ok _ => Except.ok [⟨"close", cleanKwargs kwargs⟩]

/-- Python FBCase.assign: assert the assign operation, then issue FB.assign
with the assignee full name and the cleaned parameters. -/
def FBCase.assign (c : FBCase) (person : FBPerson) (kwargs : Kwargs) :
    Except OpError (List RemoteCall) :=
  match c.assert_operation "assign" with
  | Except.error e => Except.error e
  | Except.ok _ =>
    Except.ok [⟨"assign", ("sPersonAssignedTo", person.fullname) :: cleanKwargs kwargs⟩]

/-- Python FBCase.amend: FB.amend(self.id, event.id, cleaned kwargs) — the
source issues the remote call directly, with no assert_operation. -/
def FBCase.amend (c : FBCase) (kwargs : Kwargs) : Except OpError (List RemoteCall) :=
  Except.ok [⟨"amend", cleanKwargs kwargs⟩]

/-! ## Search results: FBCaseSearch -/

/-- The composite sort key of FBCaseSearch.__init__: the tuple
(priority rank, project name, case id), compared lexicographically as in
Python tuple comparison. -/
def caseKey (c : FBShortCase) : Lex (Int × Lex (String × Int)) :=
  toLex (c.priority_id, toLex (c.project, c.id))

/-- Boolean form of the key comparison, as needed by the sort. -/
def searchLE (a b : FBShortCase) : Bool :=
  decide (caseKey a ≤ caseKey b)

/-- Python dict assignment d[k] = v: replace in place when the key exists,
append otherwise (CPython dicts keep insertion order on overwrite). -/
def dictInsert (d : List (Int × FBShortCase)) (k : Int) (v : FBShortCase) :
    List (Int × FBShortCase) :=
  if d.any (fun kv => kv.1 == k) then
    d.map (fun kv => if kv.1 == k then (k, v) else kv)
  else d ++ [(k, v)]

/-- The dict built by FBCaseSearch._parse_cases: cases[cobj.id] = cobj for
each raw case, in response order. -/
def dictOfCases (cs : List FBShortCase) : List (Int × FBShortCase) :=
  cs.foldl (fun d c => dictInsert d c.id c) []

/-- The cases.values() list of FBCaseSearch._parse_cases: a response with no
cases element gives the empty dict, otherwise each raw case is keyed by id
into a dict and the values are read back in insertion order. -/
def FBCaseSearch.raw_values (resp : Option (List FBShortCase)) : List FBShortCase :=
  match resp with
  | none => []
  | some cs => (dictOfCases cs).map Prod.snd

/-- Python FBCaseSearch._parse_cases followed by FBCaseSearch.__init__: the
deduplicated values are sorted by the composite key (priority rank, project
name, case id).  Python sorted is modelled by mergeSort (both are stable). -/
def FBCaseSearch.parse_cases (resp : Option (List FBShortCase)) : List FBShortCase :=
  (FBCaseSearch.raw_values resp).mergeSort searchLE

/-! ## History and session state -/

/-- Python FBShortCase.from_case: project a full case to its short form.
The full-case column set has no ixPriority, and history entries never read
priority_id, so that field is filled with 0. -/
def FBShortCase.from_case (c : FBCase) : FBShortCase :=
  ⟨c.ixBug, c.sStatus, c.sTitle, c.sProject, c.sPriority, 0⟩

/-- Python list.remove(scase): remove the first element equal to scase,
where FBShortCase.__eq__ compares ids only. -/
def removeFirst (h : List FBShortCase) (i : Int) : List FBShortCase :=
  match h with
  | [] => []
  | x :: xs => if x.id = i then xs else x :: removeFirst xs i

/-- Python History.push: build the short case, remove it first if an entry
with the same id exists (the in test uses FBShortCase.__eq__, id equality),
then insert at the front. -/
def History.push (h : List FBShortCase) (case : FBCase) : List FBShortCase :=
  let scase := FBShortCase.from_case case
  scase :: (if h.any (fun x => x.id == scase.id) then removeFirst h scase.id else h)

/-- The process-wide session globals of fbcli/cli.py: CURRENT_CASE,
CURRENT_USER, LAST_SEARCH and FBShortCase.HISTORY. -/
structure Session where
  currentCase : Option FBCase
  currentUser : Option FBPerson
  lastSearch : Option (List FBShortCase)
  history : List FBShortCase
  deriving DecidableEq

/-- Python set_current_case (run by FBCase.__init__, the only assignment to
CURRENT_CASE after startup): set the case as current and push it onto the
history. -/
def set_current_case (s : Session) (c : FBCase) : Session :=
  { s with currentCase := some c, history := History.push s.history c }

/-- Python set_current_user: the only assignment to CURRENT_USER; logon
passes the fetched person, logoff passes None. -/
def set_current_user (s : Session) (u : Option FBPerson) : Session :=
  { s with currentUser := u }

/-- Python set_last_search: the only assignment to LAST_SEARCH. -/
def set_last_search (s : Session) (r : List FBShortCase) : Session :=
  { s with lastSearch := some r }

/-- The session-mutating operations of cli.py.  These are exactly the
writers of the session globals: any case-producing command constructs an
FBCase (set_current_case), logon sets the user, logoff clears the user, and
a search stores the last result; nothing else assigns to the globals and
only History.push mutates the history. -/
inductive Op where
  | show_case (c : FBCase)
  | logon (u : FBPerson)
  | logoff
  | search (r : List FBShortCase)
  deriving DecidableEq

/-- One session transition, as implemented by the corresponding writer in
cli.py. -/
def Session.step (s : Session) : Op → Session
  | Op.show_case c => set_current_case s c
  | Op.logon u => set_current_user s (some u)
  | Op.logoff => set_current_user s none
  | Op.search r => set_last_search s r

/-- A sequence of session transitions. -/
def Session.run (s : Session) (ops : List Op) : Session :=
  ops.foldl Session.step s

/-! ## Command and alias dispatch -/

/-- Python Alias.__init__: split the alias command line into the target
command name and the fixed argument list.  An empty command line would raise
in the source (tokens[0]); the model returns the empty name. -/
structure Alias where
  cmdname : String
  args : List String
  deriving DecidableEq

/-- Python Alias(cmdline). -/
def Alias.ofCmdline (cmdline : String) : Alias :=
  let tokens := pySplit cmdline
  ⟨tokens.headD "", tokens.tail⟩

/-- The default alias table built by create_aliases. -/
def default_aliases : List (String × Alias) :=
  [("?", Alias.ofCmdline "help"),
   ("b", Alias.ofCmdline "browse"),
   ("bye", Alias.ofCmdline "quit"),
   ("c", Alias.ofCmdline "comment"),
   ("exit", Alias.ofCmdline "quit"),
   ("h", Alias.ofCmdline "history"),
   ("login", Alias.ofCmdline "logon"),
   ("logout", Alias.ofCmdline "logoff"),
   ("mycases", Alias.ofCmdline "search assignedTo:me status:open"),
   ("r", Alias.ofCmdline "reload"),
   ("s", Alias.ofCmdline "show"),
   ("sh", Alias.ofCmdline "header"),
   ("star", Alias.ofCmdline "favorite"),
   ("starred", Alias.ofCmdline "favorites"),
   ("unstar", Alias.ofCmdline "unfavorite")]

/-- The names registered in COMMANDS by the command decorators in cli.py. -/
def command_names : List String :=
  ["logon", "logoff", "help", "whoami", "show", "header", "parent", "reload",
   "close", "reactivate", "resolve", "reopen", "duplicate", "statuses",
   "assign", "comment", "reply", "search", "top", "browse", "new",
   "projects", "areas", "milestones", "people", "attachments", "attachment",
   "links", "link", "operations", "edit", "raw", "history", "lastsearch",
   "back", "checkins", "checkin", "notify", "amend", "favorites", "favorite",
   "unfavorite", "recent", "ipython", "quit"]

/-- Dict lookup ALIASES.get(name), modelled as first match in the ordered
alias table. -/
def lookupAlias (aliases : List (String × Alias)) (name : String) : Option Alias :=
  match aliases with
  | [] => none
  | (k, a) :: rest => if k = name then some a else lookupAlias rest name

/-- What a dispatched input line resolves to. -/
inductive ExecOutcome where
  | show_case (token : String)
  | call (cmdname : String) (args : List String)
  | unknown_command (name : String)
  deriving DecidableEq

/-- Python exec_ together with Alias.__call__ and Alias.cmd: an all-digit
token shows that case; an alias invokes its target command (which must be
registered, else the Unknown command assertion in Alias.cmd fires) with the
fixed arguments prepended; otherwise the command table is consulted and a
missing name fails with the Unknown command assertion. -/
def exec_ (aliases : List (String × Alias)) (commands : List String)
    (cmd : String) (args : List String) : ExecOutcome :=
  if pyIsdigit cmd then ExecOutcome.show_case cmd
  else match lookupAlias aliases cmd with
    | some a =>
      if a.cmdname ∈ commands then ExecOutcome.call a.cmdname (a.args ++ args)
      else ExecOutcome.unknown_command a.cmdname
    | none =>
      if cmd ∈ commands then ExecOutcome.call cmd args
      else ExecOutcome.unknown_command cmd

/-! ## Helper lemmas -/

theorem searchLE_trans (a b c : FBShortCase) (h1 : searchLE a b = true)
    (h2 : searchLE b c = true) : searchLE a c = true := by
  simp only [searchLE, decide_eq_true_eq] at h1 h2 ⊢
  exact le_trans h1 h2

theorem searchLE_total (a b : FBShortCase) : (searchLE a b || searchLE b a) = true := by
  simp only [searchLE, Bool.or_eq_true, decide_eq_true_eq]
  exact le_total _ _

theorem dictInsert_map_fst_nodup (d : List (Int × FBShortCase)) (k : Int)
    (v : FBShortCase) (h : (d.map Prod.fst).Nodup) :
    ((dictInsert d k v).map Prod.fst).Nodup := by
  unfold dictInsert
  split
  case isTrue hany =>
    have heq : (d.map (fun kv => if kv.1 == k then (k, v) else kv)).map Prod.fst
        = d.map Prod.fst := by
      rw [List.map_map]
      refine List.map_congr_left fun kv _ => ?_
      by_cases hk : kv.1 = k
      · simp [hk]
      · simp [hk]
    rw [heq]
    exact h
  case isFalse hany =>
    rw [List.map_append]
    rw [List.nodup_append]
    refine ⟨h, by simp, ?_⟩
    intro x hx hx'
    simp only [List.map_cons, List.map_nil, List.mem_singleton] at hx'
    subst hx'
    rw [Bool.not_eq_true] at hany
    rw [List.any_eq_false] at hany
    obtain ⟨kv, hkv, hfst⟩ := List.mem_map.1 hx
    exact hany kv hkv (by simp [hfst])

theorem dictInsert_val_id (d : List (Int × FBShortCase)) (k : Int) (v : FBShortCase)
    (hd : ∀ kv ∈ d, kv.2.id = kv.1) (hv : v.id = k) :
    ∀ kv ∈ dictInsert d k v, kv.2.id = kv.1 := by
  unfold dictInsert
  split
  · intro kv hkv
    obtain ⟨kv0, hkv0, hrw⟩ := List.mem_map.1 hkv
    by_cases hk : kv0.1 = k
    · simp only [hk, beq_self_eq_true, if_true] at hrw
      subst hrw
      exact hv
    · simp only [beq_iff_eq, hk, if_false] at hrw
      subst hrw
      exact hd kv0 hkv0
  · intro kv hkv
    rcases List.mem_append.1 hkv with hmem | hmem
    · exact hd kv hmem
    · rw [List.mem_singleton] at hmem
      subst hmem
      exact hv

theorem dict_fold_inv (cs : List FBShortCase) (d : List (Int × FBShortCase))
    (h1 : (d.map Prod.fst).Nodup) (h2 : ∀ kv ∈ d, kv.2.id = kv.1) :
    ((cs.foldl (fun d c => dictInsert d c.id c) d).map Prod.fst).Nodup ∧
      ∀ kv ∈ cs.foldl (fun d c => dictInsert d c.id c) d, kv.2.id = kv.1 := by
  induction cs generalizing d with
  | nil => exact ⟨h1, h2⟩
  | cons c cs ih =>
    exact ih _ (dictInsert_map_fst_nodup d c.id c h1)
      (dictInsert_val_id d c.id c h2 rfl)

theorem raw_values_ids_nodup (resp : Option (List FBShortCase)) :
    ((FBCaseSearch.raw_values resp).map FBShortCase.id).Nodup := by
  cases resp with
  | none => simp [FBCaseSearch.raw_values]
  | some cs =>
    obtain ⟨h1, h2⟩ := dict_fold_inv cs [] (by simp) (by simp)
    have heq : ((dictOfCases cs).map Prod.snd).map FBShortCase.id
        = (dictOfCases cs).map Prod.fst := by
      rw [List.map_map]
      exact List.map_congr_left fun kv hkv => h2 kv hkv
    simpa [FBCaseSearch.raw_values, heq] using h1

theorem removeFirst_sublist (h : List FBShortCase) (i : Int) :
    (removeFirst h i).Sublist h := by
  induction h with
  | nil => simp [removeFirst]
  | cons x xs ih =>
    unfold removeFirst
    split
    · exact List.sublist_cons_self x xs
    · exact List.Sublist.cons₂ x ih

theorem removeFirst_id_not_mem (h : List FBShortCase) (i : Int)
    (hnd : (h.map FBShortCase.id).Nodup) :
    i ∉ (removeFirst h i).map FBShortCase.id := by
  induction h with
  | nil => simp [removeFirst]
  | cons x xs ih =>
    rw [List.map_cons, List.nodup_cons] at hnd
    unfold removeFirst
    split
    case isTrue hx => simpa [← hx] using hnd.1
    case isFalse hx =>
      rw [List.map_cons, List.mem_cons]
      rintro (heq | hmem)
      · exact hx heq.symm
      · exact ih hnd.2 hmem

theorem removeFirst_length (h : List FBShortCase) (i : Int)
    (hm : i ∈ h.map FBShortCase.id) :
    (removeFirst h i).length + 1 = h.length := by
  induction h with
  | nil => simp at hm
  | cons x xs ih =>
    unfold removeFirst
    split
    case isTrue hx => simp
    case isFalse hx =>
      rw [List.map_cons, List.mem_cons] at hm
      rcases hm with heq | hmem
      · exact absurd heq.symm hx
      · simpa using ih hmem

theorem push_ids_nodup (h : List FBShortCase) (case : FBCase)
    (hnd : (h.map FBShortCase.id).Nodup) :
    ((History.push h case).map FBShortCase.id).Nodup := by
  unfold History.push
  simp only [List.map_cons, List.nodup_cons]
  split
  case isTrue hany =>
    exact ⟨removeFirst_id_not_mem h _ hnd,
      ((removeFirst_sublist h _).map FBShortCase.id).nodup hnd⟩
  case isFalse hany =>
    rw [Bool.not_eq_true, List.any_eq_false] at hany
    refine ⟨fun hmem => ?_, hnd⟩
    obtain ⟨x, hx, hxid⟩ := List.mem_map.1 hmem
    exact hany x hx (by simp [hxid])

theorem stripEnd_prefix (p : Char → Bool) (xs : List Char) :
    ∃ ys, xs = (xs.reverse.dropWhile p).reverse ++ ys := by
  obtain ⟨t, ht⟩ := List.dropWhile_suffix (l := xs.reverse) p
  refine ⟨t.reverse, ?_⟩
  have h2 := congrArg List.reverse ht
  simpa [List.reverse_append] using h2.symm

theorem pyStrip_hash_ne_sep (l : String) (hl : startswithHash l = true) :
    pyStrip l ≠ Text.SEP := by
  unfold startswithHash at hl
  cases hld : l.data with
  | nil => rw [hld] at hl; simp at hl
  | cons c t =>
    rw [hld] at hl
    have hc : c = '#' := by simpa using hl
    subst hc
    intro heq
    have hdata := congrArg String.data heq
    unfold pyStrip at hdata
    rw [hld] at hdata
    have h1 : List.dropWhile isPySpace ('#' :: t) = '#' :: t := by
      rw [List.dropWhile_cons]
      simp [isPySpace]
    rw [h1] at hdata
    simp only [String.data] at hdata
    obtain ⟨ys, hys⟩ := stripEnd_prefix isPySpace ('#' :: t)
    rw [hdata] at hys
    have hsep : Text.SEP.data = ['-', '-', '-'] := rfl
    rw [hsep] at hys
    injection hys with h2 h3
    exact absurd h2 (by decide)

theorem joinNL_blank_data (bs : List String) (h : ∀ l ∈ bs, l = "") :
    ∀ c ∈ (joinNL bs).data, c = '\n' := by
  induction bs with
  | nil => intro c hc; simp [joinNL] at hc
  | cons l rest ih =>
    cases rest with
    | nil =>
      have hl : l = "" := h l (by simp)
      intro c hc
      simp [joinNL, hl] at hc
    | cons l2 rest2 =>
      have hl : l = "" := h l (by simp)
      intro c hc
      simp only [joinNL, hl] at hc
      rw [String.data_append, String.data_append] at hc
      simp only [List.mem_append] at hc
      rcases hc with (hc | hc) | hc
      · simp at hc
      · have : c ∈ ['\n'] := hc
        simpa using this
      · exact ih (fun x hx => h x (by simp [hx])) c hc

theorem stripNL_all_newlines (s : String) (h : ∀ c ∈ s.data, c = '\n') :
    stripNL s = "" := by
  unfold stripNL
  have h1 : s.data.dropWhile (fun c => c = '\n') = [] := by
    rw [List.dropWhile_eq_nil_iff]
    intro x hx
    simpa using h x hx
  rw [h1]
  rfl

theorem dropWhile_append_of_all {α : Type} (p : α → Bool) (l₁ l₂ : List α)
    (h : ∀ x ∈ l₁, p x = true) :
    (l₁ ++ l₂).dropWhile p = l₂.dropWhile p := by
  induction l₁ with
  | nil => simp
  | cons x xs ih =>
    rw [List.cons_append, List.dropWhile_cons, h x (by simp)]
    simp only [if_true]
    exact ih fun y hy => h y (by simp [hy])

theorem foldl_push_nodup (cs : List FBCase) (hist : List FBShortCase)
    (hnd : (hist.map FBShortCase.id).Nodup) :
    ((cs.foldl History.push hist).map FBShortCase.id).Nodup := by
  induction cs generalizing hist with
  | nil => simpa using hnd
  | cons c cs ih => exact ih _ (push_ids_nodup hist c hnd)

theorem step_case_isSome (s : Session) (op : Op) (h : s.currentCase.isSome = true) :
    ((Session.step s op).currentCase).isSome = true := by
  cases op <;>
    simp [Session.step, set_current_case, set_current_user, set_last_search, h]

/-! ## Claims -/

/-- C1, counterexample: amend is a mutating Case operation, yet with a case
whose operations set is edit,assign (so amend is not permitted) the call does
not fail — it issues the FB.amend remote call anyway. -/
theorem amend_issues_call_without_operation_check :
    "amend" ∉ (⟨1, "t", "Active", "High", "proj", some "edit,assign"⟩ : FBCase).operations ∧
    FBCase.amend ⟨1, "t", "Active", "High", "proj", some "edit,assign"⟩ [("sEvent", "hi")]
      = Except.ok [⟨"amend", [("sEvent", "hi")]⟩] := by
  exact ⟨by decide, rfl⟩

/-- C1 (amended): for resolve, reopen, reactivate, close, assign, and edit
with a non-empty parameter map, if the operation name is not in the server
reported operations set of the case, the call fails with the precondition
error naming the allowed set, before any remote API call is issued (an error
result carries no remote calls) and without touching the cached case; amend
issues its remote call without any such check, and edit with an empty map
returns without checking or calling. -/
theorem mutating_calls_assert_operation (c : FBCase) (p : FBPerson) (kwargs : Kwargs) :
    ("resolve" ∉ c.operations →
      FBCase.resolve c kwargs = Except.error ⟨"resolve", c.operations⟩) ∧
    ("reopen" ∉ c.operations →
      FBCase.reopen c kwargs = Except.error ⟨"reopen", c.operations⟩) ∧
    ("reactivate" ∉ c.operations →
      FBCase.reactivate c kwargs = Except.error ⟨"reactivate", c.operations⟩) ∧
    ("close" ∉ c.operations →
      FBCase.close c kwargs = Except.error ⟨"close", c.operations⟩) ∧
    ("assign" ∉ c.operations →
      FBCase.assign c p kwargs = Except.error ⟨"assign", c.operations⟩) ∧
    (kwargs ≠ [] → "edit" ∉ c.operations →
      FBCase.edit c kwargs = Except.error ⟨"edit", c.operations⟩) ∧
    (FBCase.amend c kwargs = Except.ok [⟨"amend", cleanKwargs kwargs⟩]) ∧
    (FBCase.edit c [] = Except.ok []) := by
  refine ⟨?_, ?_, ?_, ?_, ?_, ?_, rfl, rfl⟩
  · intro h; simp [FBCase.resolve, FBCase.assert_operation, h]
  · intro h; simp [FBCase.reopen, FBCase.assert_operation, h]
  · intro h; simp [FBCase.reactivate, FBCase.assert_operation, h]
  · intro h; simp [FBCase.close, FBCase.assert_operation, h]
  · intro h; simp [FBCase.assign, FBCase.assert_operation, h]
  · intro hne h
    simp [FBCase.edit, FBCase.assert_operation, h, hne]

/-- C1, witness: a case whose operations set is only email rejects resolve
with the error naming the allowed set. -/
theorem mutating_calls_assert_operation_witness :
    FBCase.resolve ⟨1, "t", "Active", "High", "proj", some "email"⟩ [("sEvent", "hi")]
      = Except.error ⟨"resolve", ["email"]⟩ :=
  (mutating_calls_assert_operation ⟨1, "t", "Active", "High", "proj", some "email"⟩
    ⟨7, "Ann", "ann@x"⟩ [("sEvent", "hi")]).1 (by decide)

/-- C7, counterexample: cleaning leaves an empty-valued sStatus parameter in
place, so a semantically empty parameter other than the comment field is not
stripped. -/
theorem clean_kwargs_keeps_empty_status :
    cleanKwargs [("sStatus", "")] = [("sStatus", "")] ∧
    cleanKwargs [("sStatus", "")] ≠ [] := by
  exact ⟨rfl, by decide⟩

/-- C7 (amended): parameter cleaning drops exactly the comment parameter
sEvent when its value is empty; every other key-value pair, empty or not,
and any non-empty sEvent, passes through unchanged and in order, and a
permitted mutating call forwards exactly the cleaned parameters. -/
theorem clean_kwargs_drops_only_empty_sevent (kwargs : Kwargs) (c : FBCase) :
    (cleanKwargs kwargs).Sublist kwargs ∧
    (∀ kv ∈ kwargs, ¬(kv.1 = "sEvent" ∧ kv.2 = "") → kv ∈ cleanKwargs kwargs) ∧
    (∀ kv ∈ cleanKwargs kwargs, ¬(kv.1 = "sEvent" ∧ kv.2 = "")) ∧
    ("resolve" ∈ c.operations →
      FBCase.resolve c kwargs = Except.ok [⟨"resolve", cleanKwargs kwargs⟩]) := by
  refine ⟨List.filter_sublist _, ?_, ?_, ?_⟩
  · intro kv hkv hne
    rw [cleanKwargs, List.mem_filter]
    refine ⟨hkv, ?_⟩
    simpa using not_and_or.mp hne
  · intro kv hkv
    rw [cleanKwargs, List.mem_filter] at hkv
    exact not_and_or.mpr (by simpa using hkv.2)
  · intro hop
    simp [FBCase.resolve, FBCase.assert_operation, hop]

/-- C7, witness: with a permitted resolve, an empty sEvent is dropped and a
non-empty sStatus is forwarded unchanged. -/
theorem clean_kwargs_drops_only_empty_sevent_witness :
    ("sStatus", "Fixed") ∈ cleanKwargs [("sEvent", ""), ("sStatus", "Fixed")] ∧
    FBCase.resolve ⟨3, "v", "Active", "High", "pp", some "resolve,close"⟩
        [("sEvent", ""), ("sStatus", "Fixed")]
      = Except.ok [⟨"resolve", [("sStatus", "Fixed")]⟩] :=
  ⟨(clean_kwargs_drops_only_empty_sevent [("sEvent", ""), ("sStatus", "Fixed")]
      ⟨3, "v", "Active", "High", "pp", some "resolve,close"⟩).2.1
      ("sStatus", "Fixed") (by decide) (by decide),
   (clean_kwargs_drops_only_empty_sevent [("sEvent", ""), ("sStatus", "Fixed")]
      ⟨3, "v", "Active", "High", "pp", some "resolve,close"⟩).2.2.2 (by decide)⟩

/-- C10, counterexample: the contrast clause fails — amend is a mutating
method other than edit and it never checks its operation: with an absent
operations attribute (empty operations set) amend still succeeds and issues
its remote call. -/
theorem amend_also_skips_check :
    "amend" ∉ (⟨2, "u", "Open", "Low", "pr", none⟩ : FBCase).operations ∧
    FBCase.amend ⟨2, "u", "Open", "Low", "pr", none⟩ [("sEvent", "zz")]
      = Except.ok [⟨"amend", [("sEvent", "zz")]⟩] := by
  exact ⟨by decide, rfl⟩

/-- C10 (amended): calling edit with an empty parameter map is a complete
no-op — it succeeds for every case, without consulting the operations set
and with zero remote calls — unlike resolve, reopen, reactivate, close and
assign, which check their operation first and fail when it is absent
(amend, however, also skips the check). -/
theorem empty_edit_is_noop (c : FBCase) (p : FBPerson) (kw : Kwargs) :
    (FBCase.edit c [] = Except.ok []) ∧
    ("resolve" ∉ c.operations →
      FBCase.resolve c kw = Except.error ⟨"resolve", c.operations⟩) ∧
    ("reopen" ∉ c.operations →
      FBCase.reopen c kw = Except.error ⟨"reopen", c.operations⟩) ∧
    ("reactivate" ∉ c.operations →
      FBCase.reactivate c kw = Except.error ⟨"reactivate", c.operations⟩) ∧
    ("close" ∉ c.operations →
      FBCase.close c kw = Except.error ⟨"close", c.operations⟩) ∧
    ("assign" ∉ c.operations →
      FBCase.assign c p kw = Except.error ⟨"assign", c.operations⟩) := by
  refine ⟨rfl, ?_, ?_, ?_, ?_, ?_⟩
  · intro h; simp [FBCase.resolve, FBCase.assert_operation, h]
  · intro h; simp [FBCase.reopen, FBCase.assert_operation, h]
  · intro h; simp [FBCase.reactivate, FBCase.assert_operation, h]
  · intro h; simp [FBCase.close, FBCase.assert_operation, h]
  · intro h; simp [FBCase.assign, FBCase.assert_operation, h]

/-- C10, witness: edit with no parameters succeeds with zero remote calls on
a case that does not even permit edit, while close on the same case fails. -/
theorem empty_edit_is_noop_witness :
    (FBCase.edit ⟨4, "w", "Open", "Low", "pq", some "email"⟩ [] = Except.ok []) ∧
    (FBCase.close ⟨4, "w", "Open", "Low", "pq", some "email"⟩ [("sEvent", "x")]
      = Except.error ⟨"close", ["email"]⟩) :=
  ⟨(empty_edit_is_noop ⟨4, "w", "Open", "Low", "pq", some "email"⟩
      ⟨7, "Ann", "ann@x"⟩ [("sEvent", "x")]).1,
   (empty_edit_is_noop ⟨4, "w", "Open", "Low", "pq", some "email"⟩
      ⟨7, "Ann", "ann@x"⟩ [("sEvent", "x")]).2.2.2.2.1 (by decide)⟩

/-- C2: every search result list holds at most one short case per case id
(duplicate ids in the raw response collapse to one entry), and the final
list is sorted non-decreasingly by the composite key
(priority rank, project name, case id). -/
theorem search_results_deduped_and_sorted (resp : Option (List FBShortCase)) :
    ((FBCaseSearch.parse_cases resp).Pairwise fun a b => a.id ≠ b.id) ∧
    ((FBCaseSearch.parse_cases resp).Pairwise fun a b => caseKey a ≤ caseKey b) := by
  constructor
  · have hnd := raw_values_ids_nodup resp
    have hperm := List.mergeSort_perm (FBCaseSearch.raw_values resp) searchLE
    have hnd2 : (((FBCaseSearch.raw_values resp).mergeSort searchLE).map
        FBShortCase.id).Nodup := ((hperm.map FBShortCase.id).symm).nodup hnd
    rw [FBCaseSearch.parse_cases]
    exact List.pairwise_map.1 hnd2
  · have hs := List.sorted_mergeSort searchLE_trans searchLE_total
      (FBCaseSearch.raw_values resp)
    rw [FBCaseSearch.parse_cases]
    exact hs.imp fun hab => of_decide_eq_true hab

/-- C3: over any sequence of History.push calls starting from the empty
history, no two entries ever share a case id; immediately after a push the
pushed case is the front entry; and pushing a case whose id is already in
the history keeps the length unchanged (moved to front, not duplicated). -/
theorem history_push_no_duplicates :
    (∀ cs : List FBCase, ((cs.foldl History.push []).map FBShortCase.id).Nodup) ∧
    (∀ (h : List FBShortCase) (c : FBCase),
      (History.push h c).head? = some (FBShortCase.from_case c)) ∧
    (∀ (h : List FBShortCase) (c : FBCase),
      (FBShortCase.from_case c).id ∈ h.map FBShortCase.id →
        (History.push h c).length = h.length) := by
  refine ⟨fun cs => foldl_push_nodup cs [] (by simp), fun h c => rfl, ?_⟩
  intro h c hm
  obtain ⟨x, hx, hxid⟩ := List.mem_map.1 hm
  have hany : h.any (fun y => y.id == (FBShortCase.from_case c).id) = true :=
    List.any_eq_true.2 ⟨x, hx, by simp [hxid]⟩
  unfold History.push
  simp only [hany, if_true, List.length_cons]
  exact removeFirst_length h _ hm

/-- C3, witness: pushing a case whose id 5 is already the sole history entry
keeps the history at length one. -/
theorem history_push_no_duplicates_witness :
    (History.push [⟨5, "Active", "T", "P", "High", 3⟩]
      ⟨5, "t2", "Resolved", "Low", "P2", none⟩).length = 1 :=
  history_push_no_duplicates.2.2 [⟨5, "Active", "T", "P", "High", 3⟩]
    ⟨5, "t2", "Resolved", "Low", "P2", none⟩ (by decide)

/-- C4: a draft text in which no line strips to the separator token parses
with no header — its meta is the empty mapping — and its body is computed
from the full input: the comment-stripping of the whole text. -/
theorem no_separator_means_empty_header_full_body (text : String)
    (h : ∀ l ∈ splitlines text, pyStrip l ≠ Text.SEP) :
    (Text.parse text).meta = TextMeta.empty ∧
    (Text.parse text).body = stripNL (stripComments text) := by
  have hnosep : ((splitlines text).any (fun l => pyStrip l == Text.SEP)) = false := by
    rw [List.any_eq_false]
    intro l hl
    simpa using h l hl
  have hparse : Text.parse text = { header := none, rawBody := text } := by
    simp [Text.parse, hnosep]
  rw [hparse]
  exact ⟨rfl, rfl⟩

/-- C4, witness: a two-line draft with no separator keeps the whole text as
body and has an empty meta. -/
theorem no_separator_means_empty_header_full_body_witness :
    (Text.parse "hello\nworld").meta = TextMeta.empty ∧
    (Text.parse "hello\nworld").body = stripNL (stripComments "hello\nworld") :=
  no_separator_means_empty_header_full_body "hello\nworld" (by decide)

/-- C5, counterexample: a draft consisting of one comment line followed by
one blank line is not empty — comment stripping only removes the trailing
comment run, so the comment line survives and abort-on-empty does not fire. -/
theorem comment_and_blank_draft_not_empty :
    ((splitlines "# a\n\n").all (fun l => startswithHash l || l == "")) = true ∧
    (Text.parse "# a\n\n").body = "# a" ∧
    (Text.parse "# a\n\n").is_empty (fun _ => false) = false ∧
    abort_if_empty (Text.parse "# a\n\n") (fun _ => false) = Except.ok () := by
  refine ⟨by decide, by decide, by decide, ?_⟩
  have h : (Text.parse "# a\n\n").is_empty (fun _ => false) = false := by decide
  rw [abort_if_empty, h]
  simp

/-- C5 (amended): a draft whose line list is a run of blank lines followed
by a run of comment-marker lines (no blank line after any comment line) has
an empty comment-stripped body, the Text is empty, and abort-on-empty
raises the Aborted error. -/
theorem blank_then_comment_draft_aborts (text : String) (yamlTruthy : String → Bool)
    (bs cs : List String) (htext : splitlines text = bs ++ cs)
    (hb : ∀ l ∈ bs, l = "") (hc : ∀ l ∈ cs, startswithHash l = true) :
    (Text.parse text).body = "" ∧
    (Text.parse text).is_empty yamlTruthy = true ∧
    abort_if_empty (Text.parse text) yamlTruthy = Except.error EditorError.aborted := by
  have hnosep : ((splitlines text).any (fun l => pyStrip l == Text.SEP)) = false := by
    rw [List.any_eq_false]
    intro l hl
    rw [htext, List.mem_append] at hl
    rcases hl with hl | hl
    · have hle : l = "" := hb l hl
      subst hle
      simp only [beq_iff_eq, Bool.not_eq_true]
      decide
    · simpa using pyStrip_hash_ne_sep l (hc l hl)
  have hparse : Text.parse text = { header := none, rawBody := text } := by
    simp [Text.parse, hnosep]
  have hsc : stripComments text = joinNL bs := by
    unfold stripComments
    rw [htext, List.reverse_append]
    rw [dropWhile_append_of_all _ _ _ (fun x hx => hc x (List.mem_reverse.1 hx))]
    have hbr : bs.reverse.dropWhile startswithHash = bs.reverse := by
      cases hbrev : bs.reverse with
      | nil => rfl
      | cons x xs =>
        rw [List.dropWhile_cons]
        have hx : x = "" := hb x (List.mem_reverse.1 (hbrev ▸ List.mem_cons_self x xs))
        rw [hx]
        simp [startswithHash]
    rw [hbr, List.reverse_reverse]
  have hbody : (Text.parse text).body = "" := by
    rw [hparse, Text.body]
    show stripNL (stripComments text) = ""
    rw [hsc]
    exact stripNL_all_newlines _ (joinNL_blank_data bs hb)
  have hempty : (Text.parse text).is_empty yamlTruthy = true := by
    rw [Text.is_empty, hbody, hparse]
    simp
  refine ⟨hbody, hempty, ?_⟩
  rw [abort_if_empty, hempty]
  simp

/-- C5, witness: two blank lines followed by two comment lines parse to an
empty body and abort-on-empty raises the Aborted error. -/
theorem blank_then_comment_draft_aborts_witness :
    abort_if_empty (Text.parse "\n\n# a\n# b") (fun _ => true)
      = Except.error EditorError.aborted :=
  (blank_then_comment_draft_aborts "\n\n# a\n# b" (fun _ => true)
    ["", ""] ["# a", "# b"] (by decide) (by decide) (by decide)).2.2

/-- C6, counterexample: after get_by_id caches person 246, get_all run on a
listing that contains the same person constructs and caches a second wrapper
for it, so the cache holds two entries with the same id. -/
theorem person_cache_duplicate_id :
    (FBPerson.get_all (FBPerson.get_by_id [] 246 ⟨246, "Jose", "jose@x"⟩).2.1
        [⟨246, "Jose", "jose@x"⟩]).1
      = [⟨246, "Jose", "jose@x"⟩, ⟨246, "Jose", "jose@x"⟩] ∧
    ¬ ((([⟨246, "Jose", "jose@x"⟩, ⟨246, "Jose", "jose@x"⟩] : List FBPerson).map
        FBPerson.id).Nodup) := by
  exact ⟨rfl, by decide⟩

/-- C6 (amended): get_by_id and get_by_email called with data for an already
cached person return a cached entry with the matching id or email, leave the
cache unchanged, and issue zero remote fetches; the cache can nevertheless
hold two entries with the same id, because get_all inserts every listed
person unconditionally. -/
theorem person_cache_hit_issues_no_fetch (cache : List FBPerson) (pid : Int)
    (em : String) (r1 r2 p q : FBPerson)
    (hp : p ∈ cache) (hpid : p.id = pid) (hq : q ∈ cache) (hqem : q.email = em) :
    ((FBPerson.get_by_id cache pid r1).1 ∈ cache ∧
     (FBPerson.get_by_id cache pid r1).1.id = pid ∧
     (FBPerson.get_by_id cache pid r1).2.1 = cache ∧
     (FBPerson.get_by_id cache pid r1).2.2 = 0) ∧
    ((FBPerson.get_by_email cache em r2).1 ∈ cache ∧
     (FBPerson.get_by_email cache em r2).1.email = em ∧
     (FBPerson.get_by_email cache em r2).2.1 = cache ∧
     (FBPerson.get_by_email cache em r2).2.2 = 0) := by
  constructor
  · have hsome : (cache.find? (fun x => x.id == pid)).isSome = true :=
      List.find?_isSome.2 ⟨p, hp, by simp [hpid]⟩
    obtain ⟨x, hx⟩ := Option.isSome_iff_exists.1 hsome
    have hxmem := List.mem_of_find?_eq_some hx
    have hxid : x.id = pid := by simpa using List.find?_some hx
    unfold FBPerson.get_by_id
    rw [hx]
    exact ⟨hxmem, hxid, rfl, rfl⟩
  · have hsome : (cache.find? (fun x => x.email == em)).isSome = true :=
      List.find?_isSome.2 ⟨q, hq, by simp [hqem]⟩
    obtain ⟨x, hx⟩ := Option.isSome_iff_exists.1 hsome
    have hxmem := List.mem_of_find?_eq_some hx
    have hxem : x.email = em := by simpa using List.find?_some hx
    unfold FBPerson.get_by_email
    rw [hx]
    exact ⟨hxmem, hxem, rfl, rfl⟩

/-- C6, witness: with person 246 already cached, a get_by_id for 246 leaves
the cache unchanged and issues zero remote fetches. -/
theorem person_cache_hit_issues_no_fetch_witness :
    (FBPerson.get_by_id [⟨246, "Jose", "jose@x"⟩] 246 ⟨9, "R", "r@x"⟩).2.1
      = [⟨246, "Jose", "jose@x"⟩] ∧
    (FBPerson.get_by_id [⟨246, "Jose", "jose@x"⟩] 246 ⟨9, "R", "r@x"⟩).2.2 = 0 :=
  ⟨(person_cache_hit_issues_no_fetch [⟨246, "Jose", "jose@x"⟩] 246 "jose@x"
      ⟨9, "R", "r@x"⟩ ⟨9, "R", "r@x"⟩ ⟨246, "Jose", "jose@x"⟩ ⟨246, "Jose", "jose@x"⟩
      (by decide) (by decide) (by decide) (by decide)).1.2.2.1,
   (person_cache_hit_issues_no_fetch [⟨246, "Jose", "jose@x"⟩] 246 "jose@x"
      ⟨9, "R", "r@x"⟩ ⟨9, "R", "r@x"⟩ ⟨246, "Jose", "jose@x"⟩ ⟨246, "Jose", "jose@x"⟩
      (by decide) (by decide) (by decide) (by decide)).1.2.2.2⟩

/-- C8, counterexample: the all-digit token 99 names neither an alias nor a
registered command, yet dispatch does not fail with the unknown-command
error — it is special-cased to show case 99. -/
theorem digit_token_bypasses_unknown_command :
    lookupAlias default_aliases "99" = none ∧
    "99" ∉ command_names ∧
    exec_ default_aliases command_names "99" [] = ExecOutcome.show_case "99" ∧
    exec_ default_aliases command_names "99" []
      ≠ ExecOutcome.unknown_command "99" := by
  decide

/-- C8 (amended): for a non-numeric input token, a registered alias whose
target command is registered invokes that command with the fixed argument
list prepended to the user arguments, and a token that is neither an alias
nor a registered command fails with the unknown-command error; in
particular the default alias mycases with no extra arguments calls search
with exactly the tokens assignedTo:me status:open. -/
theorem alias_dispatch_prepends_fixed_args (aliases : List (String × Alias))
    (commands : List String) (cmd : String) (args : List String) (a : Alias) :
    (pyIsdigit cmd = false → lookupAlias aliases cmd = some a →
      a.cmdname ∈ commands →
      exec_ aliases commands cmd args = ExecOutcome.call a.cmdname (a.args ++ args)) ∧
    (pyIsdigit cmd = false → lookupAlias aliases cmd = none → cmd ∉ commands →
      exec_ aliases commands cmd args = ExecOutcome.unknown_command cmd) ∧
    (exec_ default_aliases command_names "mycases" []
      = ExecOutcome.call "search" ["assignedTo:me", "status:open"]) := by
  refine ⟨?_, ?_, by decide⟩
  · intro hdig hlook hmem
    simp [exec_, hdig, hlook, hmem]
  · intro hdig hlook hmem
    simp [exec_, hdig, hlook, hmem]

/-- C8, witness: mycases invoked with one extra argument calls search with
the two fixed tokens followed by the extra argument. -/
theorem alias_dispatch_prepends_fixed_args_witness :
    exec_ default_aliases command_names "mycases" ["project:foo"]
      = ExecOutcome.call "search" ["assignedTo:me", "status:open", "project:foo"] :=
  (alias_dispatch_prepends_fixed_args default_aliases command_names "mycases"
    ["project:foo"] (Alias.ofCmdline "search assignedTo:me status:open")).1
    (by decide) (by decide) (by decide)

/-- C9: once the current case is set it can only be replaced, never unset,
under every sequence of session operations; and logoff clears only the
current user, leaving the current case and the history unchanged. -/
theorem current_case_never_unset :
    (∀ (s : Session) (ops : List Op), s.currentCase.isSome = true →
      ((Session.run s ops).currentCase).isSome = true) ∧
    (∀ s : Session, (Session.step s Op.logoff).currentCase = s.currentCase ∧
      (Session.step s Op.logoff).history = s.history ∧
      (Session.step s Op.logoff).currentUser = none) := by
  constructor
  · intro s ops
    induction ops generalizing s with
    | nil => intro h; simpa [Session.run] using h
    | cons op ops ih =>
      intro h
      show ((Session.run (Session.step s op) ops).currentCase).isSome = true
      exact ih _ (step_case_isSome s op h)
  · intro s
    exact ⟨rfl, rfl, rfl⟩

/-- C9, witness: starting with case 1 current, running logon, logoff, a
search and a show of case 2 leaves some case current. -/
theorem current_case_never_unset_witness :
    ((Session.run ⟨some ⟨1, "t", "A", "H", "p", none⟩, none, none, []⟩
      [Op.logon ⟨7, "N", "n@x"⟩, Op.logoff, Op.search [],
       Op.show_case ⟨2, "u", "B", "L", "q", none⟩]).currentCase).isSome = true :=
  current_case_never_unset.1 ⟨some ⟨1, "t", "A", "H", "p", none⟩, none, none, []⟩
    [Op.logon ⟨7, "N", "n@x"⟩, Op.logoff, Op.search [],
     Op.show_case ⟨2, "u", "B", "L", "q", none⟩] (by decide)
